import Mathlib

/-!
Verification of the attention-signaling core of claude-code-ntfy.

This file gives a shallow embedding, in Lean, of the parts of the Go
program that the specification talks about, and proves (or refutes)
the specified properties against that embedding:

* `BState` / `bStep` / `bRun` — the inactivity engine
  (pkg/notification/backstop_notifier.go: NewBackstopNotifier, Send,
  MarkActivity, sendBackstopNotification, SetBackstopSent, ResetSession).
  Bytes of state: the configured timeout, the backstopSent flag, and
  whether a live timer is scheduled.  Each event returns the list of
  notification kinds handed to the underlying sink.
* `OMState` / `omHandleData` / `omFlush` — the line-buffered bell scan of
  the output monitor (pkg/monitor OutputMonitor.HandleData, processLine,
  Flush).
* `DetState` / `detStep` — the screen-clear sequence detector
  (pkg/monitor/terminal_detector.go TerminalSequenceDetector.DetectSequences).
* `ORState` / `orRead` — the output pump reader
  (process outputReader.Read and outputReader.filterFocusSequences).
* `managerWait` / `managerExitCode` — exit-code bookkeeping
  (pkg/process/manager.go Manager.Wait / Manager.ExitCode), over a model
  of the documented semantics of Go os.ProcessState.ExitCode.
* `setupSignalForwardingSignals` / `signalsForwarded` — the signal set the
  wrapper registers and forwards (Manager.setupSignalForwarding,
  Manager.forwardSignals).
* `managerStart` — the self-wrap refusal and marker insertion
  (Manager.Start).
* `validate` — configuration validation (pkg/config/config.go validate).

Bytes are modelled as Nat, byte strings as List Nat, Go time.Duration as
Int (nanoseconds), and the mutex-serialized engine as a step function on
an explicit state: the mutual-exclusion gate in the Go code means every
observable history is some interleaving, i.e. some event list fed to the
step function.
-/

/-! ## Inactivity engine (BackstopNotifier) -/

/-- Events delivered to the BackstopNotifier under its mutex: a forwarded
notification carrying its kind tag (Send), an activity mark from the
output monitor (MarkActivity), the expiry of the scheduled one-shot timer
(timerFire, possible only while a timer is live), the bell-driven flag
write (SetBackstopSent), and a session reset (ResetSession). -/
inductive BEvent where
  | send (kind : String)
  | markActivity
  | timerFire
  | setBackstopSent (sent : Bool)
  | resetSession
deriving DecidableEq, Repr

/-- State of a BackstopNotifier: the construction-time timeout (Go
time.Duration, an Int), the backstopSent flag, and whether a live timer
is currently scheduled (bn.timer non-nil and not stopped/expired). -/
structure BState where
  timeout : Int
  backstopSent : Bool
  timerOn : Bool
deriving DecidableEq, Repr

/-- NewBackstopNotifier: backstopSent starts false; the initial timer is
scheduled exactly when timeout > 0 (startTimer). -/
def newBackstopNotifier (timeout : Int) : BState :=
  { timeout := timeout, backstopSent := false, timerOn := decide (0 < timeout) }

/-- One serialized engine event.  Returns the successor state and the
kinds of the notifications handed to the underlying sink during the
event.  Mirrors the Go methods:

* Send: clears backstopSent, stops and (iff timeout > 0) restarts the
  timer, forwards the given notification to the underlying sink;
* MarkActivity: same bookkeeping, nothing forwarded;
* timer expiry (sendBackstopNotification): consumes the timer; if
  backstopSent is still false it sends one notification of kind
  "backstop" and sets backstopSent;
* SetBackstopSent b: writes the flag; when b is true it stops the timer;
* ResetSession: clears backstopSent, stops and (iff timeout > 0)
  restarts the timer. -/
def bStep (s : BState) : BEvent → BState × List String
  | .send kind =>
      ({ s with backstopSent := false, timerOn := decide (0 < s.timeout) }, [kind])
  | .markActivity =>
      ({ s with backstopSent := false, timerOn := decide (0 < s.timeout) }, [])
  | .timerFire =>
      if s.timerOn then
        if s.backstopSent then ({ s with timerOn := false }, [])
        else ({ s with backstopSent := true, timerOn := false }, [("backstop")])
      else (s, [])
  | .setBackstopSent b =>
      ({ s with backstopSent := b, timerOn := if b then false else s.timerOn }, [])
  | .resetSession =>
      ({ s with backstopSent := false, timerOn := decide (0 < s.timeout) }, [])

/-- Run a list of events from a state, concatenating sink invocations. -/
def bRun (s : BState) : List BEvent → BState × List String
  | [] => (s, [])
  | e :: es =>
      let p := bStep s e
      let q := bRun p.1 es
      (q.1, p.2 ++ q.2)

/-- The kinds delivered to the sink over a whole run from a fresh
notifier. -/
def bTrace (timeout : Int) (events : List BEvent) : List String :=
  (bRun (newBackstopNotifier timeout) events).2

/-- How many backstop-kind notifications the sink received. -/
def backstopCount (timeout : Int) (events : List BEvent) : Nat :=
  (bTrace timeout events).count ("backstop")

/-- Events that clear the backstopSent flag (and hence re-enable a later
backstop): Send, MarkActivity, ResetSession, SetBackstopSent(false). -/
def clearsFlag : BEvent → Bool
  | .send _ => true
  | .markActivity => true
  | .resetSession => true
  | .setBackstopSent b => !b
  | .timerFire => false

/-- Number of flag-clearing events in a list. -/
def clearingCount (events : List BEvent) : Nat :=
  events.countP clearsFlag

theorem bRun_append (s : BState) (es fs : List BEvent) :
    bRun s (es ++ fs) =
      ((bRun (bRun s es).1 fs).1, (bRun s es).2 ++ (bRun (bRun s es).1 fs).2) := by
  induction es generalizing s with
  | nil => simp [bRun]
  | cons e es ih => simp [bRun, ih, List.append_assoc]

/-- Potential: one pending backstop while the flag is clear, none once it
is set. -/
def bPotential (s : BState) : Nat :=
  if s.backstopSent then 0 else 1

theorem bPotential_le_one (s : BState) : bPotential s ≤ 1 := by
  unfold bPotential
  split <;> omega


theorem backstop_count_le (es : List BEvent) (s : BState)
    (hsend : ∀ k, BEvent.send k ∈ es → k ≠ "backstop") :
    ((bRun s es).2.count ("backstop")) ≤ bPotential s + clearingCount es := by
  induction es generalizing s with
  | nil => simp [bRun, bPotential]
  | cons e es ih =>
    obtain ⟨t, sent, ton⟩ := s
    have hsend' : ∀ k, BEvent.send k ∈ es → k ≠ "backstop" := by
      intro k hk
      exact hsend k (List.mem_cons_of_mem _ hk)
    have hrun : (bRun (BState.mk t sent ton) (e :: es)).2 =
        (bStep (BState.mk t sent ton) e).2 ++
          (bRun (bStep (BState.mk t sent ton) e).1 es).2 := rfl
    have h := ih (bStep (BState.mk t sent ton) e).1 hsend'
    rw [hrun, List.count_append]
    cases e with
    | send kind =>
      have hk : kind ≠ "backstop" := hsend kind (List.mem_cons_self _ _)
      have hk2 : ¬ (("backstop") = kind) := fun hcon => hk hcon.symm
      cases sent <;>
        simp [bStep, bPotential, clearingCount, clearsFlag, List.count_cons,
          List.countP_cons, hk2] at h ⊢ <;>
        omega
    | markActivity =>
      cases sent <;>
        simp [bStep, bPotential, clearingCount, clearsFlag, List.count_cons,
          List.countP_cons] at h ⊢ <;>
        omega
    | timerFire =>
      cases sent <;> cases ton <;>
        simp [bStep, bPotential, clearingCount, clearsFlag, List.count_cons,
          List.countP_cons] at h ⊢ <;>
        omega
    | setBackstopSent b =>
      cases sent <;> cases b <;>
        simp [bStep, bPotential, clearingCount, clearsFlag, List.count_cons,
          List.countP_cons] at h ⊢ <;>
        omega
    | resetSession =>
      cases sent <;>
        simp [bStep, bPotential, clearingCount, clearsFlag, List.count_cons,
          List.countP_cons] at h ⊢ <;>
        omega

/-- Kinds forwarded through Send, in order. -/
def sendKinds (events : List BEvent) : List String :=
  events.filterMap (fun e =>
    match e with
    | .send k => some k
    | _ => none)

theorem bRun_quiet (es : List BEvent) :
    ∀ (t : Int) (ton : Bool),
      (∀ e ∈ es, e = BEvent.timerFire ∨ e = BEvent.setBackstopSent true) →
      (bRun (BState.mk t true ton) es).2 = [] := by
  induction es with
  | nil =>
    intro t ton _
    rfl
  | cons e es ih =>
    intro t ton hes
    have he := hes e (List.mem_cons_self _ _)
    have hes' : ∀ x ∈ es, x = BEvent.timerFire ∨ x = BEvent.setBackstopSent true :=
      fun x hx => hes x (List.mem_cons_of_mem _ hx)
    rcases he with rfl | rfl
    · cases ton <;> simp [bRun, bStep, ih t false hes', ih t true hes']
    · simp [bRun, bStep, ih t false hes']

theorem bRun_zero_timeout (es : List BEvent) :
    ∀ (t : Int), ¬ (0 < t) → ∀ sent : Bool,
      (bRun (BState.mk t sent false) es).2 = sendKinds es ∧
        ((bRun (BState.mk t sent false) es).1).timerOn = false := by
  induction es with
  | nil =>
    intro t _ sent
    exact ⟨rfl, rfl⟩
  | cons e es ih =>
    intro t ht sent
    cases e with
    | send kind =>
      have h := ih t ht false
      simp [bRun, bStep, sendKinds, ht] at h ⊢
      exact h
    | markActivity =>
      have h := ih t ht false
      simp [bRun, bStep, sendKinds, ht] at h ⊢
      exact h
    | timerFire =>
      have h := ih t ht sent
      simp [bRun, bStep, sendKinds, ht] at h ⊢
      exact h
    | setBackstopSent b =>
      have h := ih t ht b
      cases b <;> simp [bRun, bStep, sendKinds, ht] at h ⊢ <;> exact h
    | resetSession =>
      have h := ih t ht false
      simp [bRun, bStep, sendKinds, ht] at h ⊢
      exact h

/-- C1 counterexample.  The claim says the sink receives at most one
backstop-kind notification between initialization and the first session
reset, for every event sequence.  On the code, after a backstop has
fired, a MarkActivity call (any visible output) clears backstopSent and
restarts the timer (MarkActivity always restarts the timer when
timeout > 0), so a second timer expiry sends a second backstop with no
ResetSession in between: the run below delivers two backstop-kind
notifications. -/
theorem c1_counterexample :
    bTrace 1 [BEvent.timerFire, BEvent.markActivity, BEvent.timerFire] =
      [("backstop"), ("backstop")] ∧
    ¬ (backstopCount 1 [BEvent.timerFire, BEvent.markActivity, BEvent.timerFire] ≤ 1) := by
  constructor
  · rfl
  · decide

/-- C1 amended.  At most one backstop notification is sent between
consecutive flag-clearing events: the number of backstop-kind sink
invocations is at most one more than the number of Send / MarkActivity /
ResetSession / SetBackstopSent(false) events in the run.  In particular,
while no activity at all is delivered, the backstop fires at most once.
(The hypothesis records that Send is only ever invoked with the
program's own non-backstop notification kinds; only
sendBackstopNotification constructs a backstop-kind notification.) -/
theorem c1_theorem (timeout : Int) (events : List BEvent)
    (hsend : ∀ k, BEvent.send k ∈ events → k ≠ "backstop") :
    backstopCount timeout events ≤ 1 + clearingCount events := by
  have h := backstop_count_le events (newBackstopNotifier timeout) hsend
  have hp : bPotential (newBackstopNotifier timeout) = 1 := rfl
  rw [hp] at h
  exact h

theorem c1_witness :
    (∀ k, BEvent.send k ∈ [BEvent.timerFire, BEvent.timerFire] → k ≠ "backstop") ∧
    backstopCount 1 [BEvent.timerFire, BEvent.timerFire] ≤
      1 + clearingCount [BEvent.timerFire, BEvent.timerFire] := by
  have hs : ∀ k, BEvent.send k ∈ [BEvent.timerFire, BEvent.timerFire] → k ≠ "backstop" := by
    intro k hk
    simp at hk
  exact ⟨hs, c1_theorem 1 _ hs⟩

/-- C2 counterexample.  The claim says that once a TerminalBell has been
observed (OutputMonitor.processLine calls SetBackstopSent(true)), no
backstop is ever sent for the rest of the session, regardless of
subsequent MarkActivity calls.  On the code, a MarkActivity after the
bell clears backstopSent and restarts the timer, so the next timer
expiry sends a backstop with no session reset in between. -/
theorem c2_counterexample :
    bTrace 1 [BEvent.setBackstopSent true, BEvent.markActivity, BEvent.timerFire] =
      [("backstop")] ∧
    ¬ (backstopCount 1
        [BEvent.setBackstopSent true, BEvent.markActivity, BEvent.timerFire] = 0) := by
  constructor
  · rfl
  · decide

/-- C2 amended.  After a TerminalBell (SetBackstopSent(true)), the engine
stays silent only until the next flag-clearing event: as long as the
events that follow the bell are timer expiries or further bells, nothing
more reaches the sink.  Any MarkActivity, Send or ResetSession after the
bell re-enables the backstop. -/
theorem c2_theorem (timeout : Int) (pre post : List BEvent)
    (hpost : ∀ e ∈ post, e = BEvent.timerFire ∨ e = BEvent.setBackstopSent true) :
    bTrace timeout (pre ++ BEvent.setBackstopSent true :: post) =
      bTrace timeout (pre ++ [BEvent.setBackstopSent true]) := by
  unfold bTrace
  have e1 := bRun_append (newBackstopNotifier timeout) pre (BEvent.setBackstopSent true :: post)
  have e2 := bRun_append (newBackstopNotifier timeout) pre [BEvent.setBackstopSent true]
  rw [e1, e2]
  simp only []
  congr 1
  obtain ⟨t0, sent0, ton0⟩ := (bRun (newBackstopNotifier timeout) pre).1
  simp [bRun, bStep, bRun_quiet post t0 false hpost]

theorem c2_witness :
    (∀ e ∈ [BEvent.timerFire], e = BEvent.timerFire ∨ e = BEvent.setBackstopSent true) ∧
    bTrace 1 ([BEvent.markActivity] ++ BEvent.setBackstopSent true :: [BEvent.timerFire]) =
      bTrace 1 ([BEvent.markActivity] ++ [BEvent.setBackstopSent true]) := by
  have hp : ∀ e ∈ [BEvent.timerFire], e = BEvent.timerFire ∨ e = BEvent.setBackstopSent true := by
    intro e he
    simp at he
    exact Or.inl he
  exact ⟨hp, c2_theorem 1 [BEvent.markActivity] [BEvent.timerFire] hp⟩

/-- C5 confirmed.  A BackstopNotifier constructed with timeout 0 never
schedules a timer (for every event sequence the timer flag is false, so
in particular it is false after every prefix of the run), and everything
the sink receives is a notification forwarded verbatim by Send; since the
program only ever forwards non-backstop kinds through Send (backstop-kind
notifications are constructed solely inside sendBackstopNotification),
the sink never receives a backstop-kind notification. -/
theorem c5_theorem (events : List BEvent)
    (hsend : ∀ k, BEvent.send k ∈ events → k ≠ "backstop") :
    backstopCount 0 events = 0 ∧
      ((bRun (newBackstopNotifier 0) events).1).timerOn = false := by
  have h := bRun_zero_timeout events 0 (by omega) false
  have hinit : newBackstopNotifier 0 = BState.mk 0 false false := rfl
  constructor
  · unfold backstopCount bTrace
    rw [hinit, h.1]
    apply List.count_eq_zero.mpr
    intro hmem
    obtain ⟨e, hemem, hke⟩ := List.mem_filterMap.mp hmem
    cases e with
    | send k =>
      have : k = "backstop" := by
        simpa using hke
      exact hsend k (by simpa using hemem) this
    | markActivity => simp at hke
    | timerFire => simp at hke
    | setBackstopSent b => simp at hke
    | resetSession => simp at hke
  · rw [hinit]
    exact h.2

theorem c5_witness :
    (∀ k, BEvent.send k ∈ [BEvent.markActivity, BEvent.timerFire, BEvent.resetSession] →
      k ≠ "backstop") ∧
    (backstopCount 0 [BEvent.markActivity, BEvent.timerFire, BEvent.resetSession] = 0 ∧
      ((bRun (newBackstopNotifier 0)
        [BEvent.markActivity, BEvent.timerFire, BEvent.resetSession]).1).timerOn = false) := by
  have hs : ∀ k, BEvent.send k ∈ [BEvent.markActivity, BEvent.timerFire, BEvent.resetSession] →
      k ≠ "backstop" := by
    intro k hk
    simp at hk
  exact ⟨hs, c5_theorem _ hs⟩

/-! ## Byte-string helpers shared by the monitor, the detector and the
output pump.  Bytes are Nat; startsWithSeq and containsSeq mirror the Go
standard library bytes.HasPrefix and bytes.Contains used by the source. -/

/-- True when the second list begins with the first. -/
def startsWithSeq : List Nat → List Nat → Bool
  | [], _ => true
  | _ :: _, [] => false
  | a :: s, b :: l => a == b && startsWithSeq s l

/-- True when the first list occurs contiguously inside the second
(bytes.Contains). -/
def containsSeq (s : List Nat) : List Nat → Bool
  | [] => startsWithSeq s []
  | b :: l => startsWithSeq s (b :: l) || containsSeq s l

theorem startsWithSeq_iff (s : List Nat) :
    ∀ l : List Nat, startsWithSeq s l = true ↔ ∃ r, l = s ++ r := by
  induction s with
  | nil =>
    intro l
    simp [startsWithSeq]
  | cons a s ih =>
    intro l
    cases l with
    | nil =>
      simp [startsWithSeq]
    | cons b l =>
      rw [startsWithSeq]
      constructor
      · intro h
        have hab : a = b := by
          have := (Bool.and_eq_true _ _).mp h
          simpa using this.1
        obtain ⟨r, hr⟩ := (ih l).mp ((Bool.and_eq_true _ _).mp h).2
        exact ⟨r, by simp [hab, hr]⟩
      · rintro ⟨r, hr⟩
        simp only [List.cons_append, List.cons.injEq] at hr
        apply (Bool.and_eq_true _ _).mpr
        constructor
        · simp [hr.1]
        · exact (ih l).mpr ⟨r, hr.2⟩

theorem containsSeq_iff (s : List Nat) :
    ∀ l : List Nat, containsSeq s l = true ↔ ∃ p q, l = p ++ s ++ q := by
  intro l
  induction l with
  | nil =>
    rw [containsSeq, startsWithSeq_iff]
    constructor
    · rintro ⟨r, hr⟩
      exact ⟨[], r, by simp [hr]⟩
    · rintro ⟨p, q, hpq⟩
      cases p with
      | nil => exact ⟨q, by simpa using hpq⟩
      | cons x p => simp at hpq
  | cons b l ih =>
    rw [containsSeq, Bool.or_eq_true, startsWithSeq_iff, ih]
    constructor
    · rintro (⟨r, hr⟩ | ⟨p, q, hpq⟩)
      · exact ⟨[], r, by simp [hr]⟩
      · exact ⟨b :: p, q, by simp [hpq]⟩
    · rintro ⟨p, q, hpq⟩
      cases p with
      | nil =>
        left
        exact ⟨q, by simpa using hpq⟩
      | cons x p =>
        right
        simp only [List.cons_append, List.append_assoc, List.cons.injEq] at hpq
        exact ⟨p, q, by simp [hpq.2]⟩

theorem containsSeq_singleton (a : Nat) (l : List Nat) :
    containsSeq [a] l = true ↔ a ∈ l := by
  rw [containsSeq_iff]
  constructor
  · rintro ⟨p, q, hpq⟩
    subst hpq
    simp
  · intro hmem
    obtain ⟨p, q, hpq⟩ := List.append_of_mem hmem
    exact ⟨p, q, by simp [hpq]⟩

/-! ## Output monitor bell scan (OutputMonitor) -/

/-- Split a byte buffer into its complete (newline-terminated) lines and
the trailing unterminated remainder, exactly as the scanning loop in
OutputMonitor.HandleData does: a byte 10 ends the current line; bytes
after the last newline stay in the buffer. -/
def splitComplete : List Nat → List (List Nat) × List Nat
  | [] => ([], [])
  | b :: rest =>
      let p := splitComplete rest
      if b = 10 then ([] :: p.1, p.2)
      else
        match p.1 with
        | [] => ([], b :: p.2)
        | l :: ls => ((b :: l) :: ls, p.2)

/-- Each complete line with its terminating newline restored. -/
def joinLines (ls : List (List Nat)) : List Nat :=
  (ls.map (fun l => l ++ [10])).flatten

theorem splitComplete_join (input : List Nat) :
    joinLines (splitComplete input).1 ++ (splitComplete input).2 = input := by
  induction input with
  | nil => rfl
  | cons b rest ih =>
    by_cases hb : b = 10
    · subst hb
      simp only [splitComplete, if_pos rfl]
      simpa [joinLines] using ih
    · simp only [splitComplete, if_neg hb]
      rcases hls : (splitComplete rest).1 with _ | ⟨l, ls⟩
      · rw [hls] at ih
        simp only [joinLines, List.map_nil, List.flatten_nil, List.nil_append] at ih
        simp [joinLines, ih]
      · rw [hls] at ih
        simp only [joinLines, List.map_cons, List.flatten_cons, List.append_assoc] at ih ⊢
        simpa using ih

theorem splitComplete_bell (a : Nat) (ha : a ≠ 10) (input : List Nat) :
    ((∃ l ∈ (splitComplete input).1, a ∈ l) ∨ a ∈ (splitComplete input).2) ↔
      a ∈ input := by
  constructor
  · intro h
    rw [← splitComplete_join input]
    rcases h with ⟨l, hl, hal⟩ | hrem
    · apply List.mem_append_left
      unfold joinLines
      rw [List.mem_flatten]
      exact ⟨l ++ [10], List.mem_map_of_mem _ hl, List.mem_append_left _ hal⟩
    · exact List.mem_append_right _ hrem
  · intro h
    rw [← splitComplete_join input] at h
    rcases List.mem_append.mp h with hj | hrem
    · unfold joinLines at hj
      rw [List.mem_flatten] at hj
      obtain ⟨x, hx, hax⟩ := hj
      obtain ⟨l, hl, rfl⟩ := List.mem_map.mp hx
      rcases List.mem_append.mp hax with hal | h10
      · exact Or.inl ⟨l, hl, hal⟩
      · simp at h10
        exact absurd h10 ha
    · exact Or.inr hrem

/-- Monitor state: the pending unterminated line (om.lineBuffer) and the
number of SetBackstopSent(true) calls made so far by processLine on a
bell byte. -/
structure OMState where
  lineBuffer : List Nat
  bellEvents : Nat
deriving DecidableEq, Repr

/-- Fresh OutputMonitor. -/
def omInit : OMState :=
  { lineBuffer := [], bellEvents := 0 }

/-- OutputMonitor.HandleData: append the chunk to the line buffer,
process every complete line (processLine calls SetBackstopSent(true)
when the line contains byte 7), keep the unterminated remainder. -/
def omHandleData (st : OMState) (data : List Nat) : OMState :=
  let buf := st.lineBuffer ++ data
  let p := splitComplete buf
  { lineBuffer := p.2,
    bellEvents := st.bellEvents + p.1.countP (fun l => containsSeq [7] l) }

/-- OutputMonitor.Flush: process the remaining unterminated line, if
any, then clear the buffer. -/
def omFlush (st : OMState) : OMState :=
  if st.lineBuffer.isEmpty then st
  else
    { lineBuffer := [],
      bellEvents := st.bellEvents + (if containsSeq [7] st.lineBuffer then 1 else 0) }

/-- Feed a sequence of chunks through HandleData. -/
def omRun (st : OMState) : List (List Nat) → OMState
  | [] => st
  | c :: cs => omRun (omHandleData st c) cs

theorem omHandleData_bell (st : OMState) (data : List Nat) :
    (0 < (omHandleData st data).bellEvents ∨ 7 ∈ (omHandleData st data).lineBuffer) ↔
      (0 < st.bellEvents ∨ 7 ∈ st.lineBuffer ∨ 7 ∈ data) := by
  have h1 : (omHandleData st data).bellEvents =
      st.bellEvents +
        (splitComplete (st.lineBuffer ++ data)).1.countP (fun l => containsSeq [7] l) := rfl
  have h2 : (omHandleData st data).lineBuffer =
      (splitComplete (st.lineBuffer ++ data)).2 := rfl
  have hsplit := splitComplete_bell 7 (by decide) (st.lineBuffer ++ data)
  rw [h1, h2]
  constructor
  · rintro (hpos | hrem)
    · by_cases h0 : 0 < st.bellEvents
      · exact Or.inl h0
      · have hcp : 0 < (splitComplete (st.lineBuffer ++ data)).1.countP
            (fun l => containsSeq [7] l) := by omega
        obtain ⟨l, hl, hcl⟩ := List.countP_pos_iff.mp hcp
        have h7l : 7 ∈ l := (containsSeq_singleton 7 l).mp hcl
        have hbuf : 7 ∈ st.lineBuffer ++ data := hsplit.mp (Or.inl ⟨l, hl, h7l⟩)
        rcases List.mem_append.mp hbuf with h | h
        · exact Or.inr (Or.inl h)
        · exact Or.inr (Or.inr h)
    · have hbuf : 7 ∈ st.lineBuffer ++ data := hsplit.mp (Or.inr hrem)
      rcases List.mem_append.mp hbuf with h | h
      · exact Or.inr (Or.inl h)
      · exact Or.inr (Or.inr h)
  · rintro (h0 | hlb | hd)
    · left
      omega
    · have hbuf : 7 ∈ st.lineBuffer ++ data := List.mem_append_left _ hlb
      rcases hsplit.mpr hbuf with ⟨l, hl, h7⟩ | hrem
      · left
        have : 0 < (splitComplete (st.lineBuffer ++ data)).1.countP
            (fun l => containsSeq [7] l) :=
          List.countP_pos_iff.mpr ⟨l, hl, (containsSeq_singleton 7 l).mpr h7⟩
        omega
      · exact Or.inr hrem
    · have hbuf : 7 ∈ st.lineBuffer ++ data := List.mem_append_right _ hd
      rcases hsplit.mpr hbuf with ⟨l, hl, h7⟩ | hrem
      · left
        have : 0 < (splitComplete (st.lineBuffer ++ data)).1.countP
            (fun l => containsSeq [7] l) :=
          List.countP_pos_iff.mpr ⟨l, hl, (containsSeq_singleton 7 l).mpr h7⟩
        omega
      · exact Or.inr hrem

theorem omRun_bell (chunks : List (List Nat)) :
    ∀ st : OMState,
      (0 < (omRun st chunks).bellEvents ∨ 7 ∈ (omRun st chunks).lineBuffer) ↔
        (0 < st.bellEvents ∨ 7 ∈ st.lineBuffer ∨ 7 ∈ chunks.flatten) := by
  induction chunks with
  | nil =>
    intro st
    simp [omRun]
  | cons c cs ih =>
    intro st
    have hr : omRun st (c :: cs) = omRun (omHandleData st c) cs := rfl
    rw [hr, ih (omHandleData st c)]
    have hstep := omHandleData_bell st c
    simp only [List.flatten_cons, List.mem_append]
    constructor
    · rintro (hb | hlb | hcs)
      · rcases hstep.mp (Or.inl hb) with h0 | hlb0 | hc0
        · exact Or.inl h0
        · exact Or.inr (Or.inl hlb0)
        · exact Or.inr (Or.inr (Or.inl hc0))
      · rcases hstep.mp (Or.inr hlb) with h0 | hlb0 | hc0
        · exact Or.inl h0
        · exact Or.inr (Or.inl hlb0)
        · exact Or.inr (Or.inr (Or.inl hc0))
      · exact Or.inr (Or.inr (Or.inr hcs))
    · rintro (h0 | hlb0 | hc0 | hcs)
      · rcases hstep.mpr (Or.inl h0) with hb | hlb
        · exact Or.inl hb
        · exact Or.inr (Or.inl hlb)
      · rcases hstep.mpr (Or.inr (Or.inl hlb0)) with hb | hlb
        · exact Or.inl hb
        · exact Or.inr (Or.inl hlb)
      · rcases hstep.mpr (Or.inr (Or.inr hc0)) with hb | hlb
        · exact Or.inl hb
        · exact Or.inr (Or.inl hlb)
      · exact Or.inr (Or.inr hcs)

theorem omFlush_bell (st : OMState) :
    0 < (omFlush st).bellEvents ↔ (0 < st.bellEvents ∨ 7 ∈ st.lineBuffer) := by
  obtain ⟨lb, n⟩ := st
  cases lb with
  | nil => simp [omFlush]
  | cons a l =>
    by_cases hc : containsSeq [7] (a :: l) = true
    · have h7 : 7 ∈ a :: l := (containsSeq_singleton 7 (a :: l)).mp hc
      simp [omFlush, hc, h7]
    · have h7 : ¬ (7 ∈ a :: l) := fun hmem => hc ((containsSeq_singleton 7 _).mpr hmem)
      simp [omFlush, hc, h7]

/-- C4 counterexample.  The claim says a TerminalBell is emitted
whenever byte 0x07 appears in the stream, including in a trailing
portion not terminated by a newline.  On the code, HandleData only runs
processLine on complete (newline-terminated) lines; a bell byte in the
unterminated tail sits in om.lineBuffer and triggers nothing (Flush,
which would process it, has no caller outside the tests): a single
chunk holding just 0x07 produces no SetBackstopSent(true) call. -/
theorem c4_counterexample :
    (7 : Nat) ∈ ([[7]] : List (List Nat)).flatten ∧
      (omRun omInit [[7]]).bellEvents = 0 := by
  constructor
  · decide
  · rfl

/-- C4 amended.  During a sequence of HandleData calls the bell is
detected exactly for 0x07 bytes lying in newline-terminated lines; a
0x07 in the trailing unterminated portion is only reported once Flush
runs.  Precisely: after any sequence of chunks followed by a Flush, at
least one SetBackstopSent(true) call has been made if and only if 0x07
appeared anywhere in the concatenated stream. -/
theorem c4_theorem (chunks : List (List Nat)) :
    0 < (omFlush (omRun omInit chunks)).bellEvents ↔ 7 ∈ chunks.flatten := by
  rw [omFlush_bell, omRun_bell chunks omInit]
  simp [omInit]

/-! ## Screen-clear detection (TerminalSequenceDetector) and session reset -/

/-- The ANSI screen-clear sequences the detector looks for, as byte
lists: ESC[2J, ESC[3J, ESC[H, ESC[0J, ESC[1J, ESCc. -/
def screenClearSequences : List (List Nat) :=
  [[27, 91, 50, 74], [27, 91, 51, 74], [27, 91, 72],
   [27, 91, 48, 74], [27, 91, 49, 74], [27, 99]]

/-- Detector state: the carry-over buffer for sequences split across
chunks. -/
structure DetState where
  buffer : List Nat
deriving DecidableEq, Repr

/-- Fresh TerminalSequenceDetector. -/
def detInit : DetState :=
  { buffer := [] }

/-- The end-of-call buffer trim: keep only the last 20 bytes once the
buffer exceeds 20 bytes. -/
def detTrim (b : List Nat) : List Nat :=
  if b.length > 20 then b.drop (b.length - 20) else b

/-- TerminalSequenceDetector.DetectSequences: append the chunk to the
buffer, report whether any screen-clear sequence occurs in the buffer
(the handler is invoked once when so), then trim the buffer. -/
def detectSequences (st : DetState) (data : List Nat) : Bool × DetState :=
  let b := st.buffer ++ data
  (screenClearSequences.any (fun seq => containsSeq seq b), { buffer := detTrim b })

/-- Run the detector over a sequence of chunks (one DetectSequences call
per HandleData call). -/
def detRun (st : DetState) : List (List Nat) → DetState
  | [] => st
  | c :: cs => detRun (detectSequences st c).2 cs

/-- OutputMonitor.HandleScreenClear: it calls ResetSession on the
backstop notifier (the notifier implements it). -/
def handleScreenClear (bs : BState) : BState :=
  (bStep bs BEvent.resetSession).1

/-- The screen-clear half of one OutputMonitor.HandleData call: run the
detector on the chunk and, when a clear is found, fire
HandleScreenClear at the backstop notifier. -/
def omScreenDetect (st : DetState) (bs : BState) (data : List Nat) : DetState × BState :=
  let p := detectSequences st data
  (p.2, if p.1 then handleScreenClear bs else bs)

theorem detTrim_suffix (b : List Nat) : ∃ γ, b = γ ++ detTrim b := by
  unfold detTrim
  by_cases h : b.length > 20
  · rw [if_pos h]
    exact ⟨b.take (b.length - 20), (List.take_append_drop _ b).symm⟩
  · rw [if_neg h]
    exact ⟨[], rfl⟩

theorem detTrim_length (b : List Nat) : (detTrim b).length = min b.length 20 := by
  unfold detTrim
  by_cases h : b.length > 20
  · rw [if_pos h]
    rw [List.length_drop]
    omega
  · rw [if_neg h]
    omega

theorem detRun_inv (chunks : List (List Nat)) :
    ∀ (st : DetState) (stream : List Nat),
      (∃ γ, stream = γ ++ st.buffer) →
      st.buffer.length = min stream.length 20 →
      (∃ γ, stream ++ chunks.flatten = γ ++ (detRun st chunks).buffer) ∧
        (detRun st chunks).buffer.length = min (stream ++ chunks.flatten).length 20 := by
  induction chunks with
  | nil =>
    intro st stream h1 h2
    simpa using ⟨h1, h2⟩
  | cons c cs ih =>
    intro st stream h1 h2
    obtain ⟨γ, hγ⟩ := h1
    have hstep : (detectSequences st c).2 = DetState.mk (detTrim (st.buffer ++ c)) := rfl
    have hsuf : ∃ δ, stream ++ c = δ ++ (detectSequences st c).2.buffer := by
      obtain ⟨δ0, hδ0⟩ := detTrim_suffix (st.buffer ++ c)
      refine ⟨γ ++ δ0, ?_⟩
      rw [hstep]
      calc stream ++ c = γ ++ st.buffer ++ c := by rw [hγ]
        _ = γ ++ (st.buffer ++ c) := by rw [List.append_assoc]
        _ = γ ++ (δ0 ++ detTrim (st.buffer ++ c)) := by rw [← hδ0]
        _ = γ ++ δ0 ++ detTrim (st.buffer ++ c) := by rw [List.append_assoc]
    have hlen : (detectSequences st c).2.buffer.length = min (stream ++ c).length 20 := by
      rw [hstep]
      have := detTrim_length (st.buffer ++ c)
      simp only [List.length_append] at this ⊢
      omega
    have hrun : detRun st (c :: cs) = detRun (detectSequences st c).2 cs := rfl
    have h := ih (detectSequences st c).2 (stream ++ c) hsuf hlen
    rw [hrun]
    constructor
    · obtain ⟨γ2, hγ2⟩ := h.1
      refine ⟨γ2, ?_⟩
      rw [List.flatten_cons, ← List.append_assoc, hγ2]
    · have := h.2
      rw [List.flatten_cons, ← List.append_assoc]
      exact this

theorem occurs_of_suffix (xs ys s α β γ : List Nat) (hxs : xs = α ++ s ++ β)
    (hsuf : xs = γ ++ ys) (hlen : s.length + β.length ≤ ys.length) :
    ∃ p q, ys = p ++ s ++ q := by
  have hγlen : γ.length ≤ α.length := by
    have h1 := congrArg List.length hxs
    have h2 := congrArg List.length hsuf
    simp only [List.length_append] at h1 h2
    omega
  have hys : ys = xs.drop γ.length := by
    rw [hsuf, List.drop_left]
  have hdrop : xs.drop γ.length = α.drop γ.length ++ s ++ β := by
    rw [hxs, List.append_assoc, List.drop_append_eq_append_drop,
      Nat.sub_eq_zero_of_le hγlen, List.drop_zero, List.append_assoc]
  exact ⟨α.drop γ.length, β, by rw [hys, hdrop]⟩

/-- C10 confirmed.  Whenever an occurrence of one of the screen-clear
sequences ends inside the chunk passed to the current HandleData call
(its earlier bytes possibly lying in previous chunks, preserved by the
detector's carry-over buffer and its keep-last-20 trim), the detector
reports a clear and the monitor invokes HandleScreenClear, i.e.
ResetSession on the backstop notifier; ResetSession clears the
backstopSent flag and restarts the timer (when timeout > 0), so from any
state — even one where a backstop was already sent — a session reset
followed by a timer expiry delivers a fresh backstop-kind notification
to the sink. -/
theorem c10_theorem (pre : List (List Nat)) (c α β s : List Nat) (bs : BState)
    (hsmem : s ∈ screenClearSequences)
    (heq : pre.flatten ++ c = α ++ s ++ β)
    (hβ : β.length < c.length) :
    (omScreenDetect (detRun detInit pre) bs c).2 = handleScreenClear bs ∧
    (handleScreenClear bs).backstopSent = false ∧
    (handleScreenClear bs).timerOn = decide (0 < bs.timeout) ∧
    (0 < bs.timeout → (bRun bs [BEvent.resetSession, BEvent.timerFire]).2 = [("backstop")]) := by
  have hinv := detRun_inv pre detInit [] ⟨[], by simp [detInit]⟩ (by simp [detInit])
  simp only [List.nil_append] at hinv
  obtain ⟨⟨γ, hγ⟩, hblen⟩ := hinv
  have hs4 : s.length ≤ 4 := by
    have : ∀ x ∈ screenClearSequences, x.length ≤ 4 := by decide
    exact this s hsmem
  have hlens : α.length + s.length + β.length = pre.flatten.length + c.length := by
    have h1 := congrArg List.length heq
    simp only [List.length_append] at h1
    omega
  have hsuf : pre.flatten ++ c = γ ++ ((detRun detInit pre).buffer ++ c) := by
    rw [← List.append_assoc, ← hγ]
  have hwin : s.length + β.length ≤ ((detRun detInit pre).buffer ++ c).length := by
    simp only [List.length_append]
    omega
  obtain ⟨p, q, hpq⟩ :=
    occurs_of_suffix (pre.flatten ++ c) ((detRun detInit pre).buffer ++ c) s α β γ
      heq hsuf hwin
  have hcontains : containsSeq s ((detRun detInit pre).buffer ++ c) = true :=
    (containsSeq_iff s _).mpr ⟨p, q, hpq⟩
  have hfound : (detectSequences (detRun detInit pre) c).1 = true := by
    apply List.any_eq_true.mpr
    exact ⟨s, hsmem, hcontains⟩
  refine ⟨?_, rfl, rfl, ?_⟩
  · have hd : (omScreenDetect (detRun detInit pre) bs c).2 =
        if (detectSequences (detRun detInit pre) c).1 then handleScreenClear bs else bs := rfl
    rw [hd, hfound, if_pos rfl]
  · intro ht
    obtain ⟨t, sent, ton⟩ := bs
    simp only [] at ht
    simp [bRun, bStep, ht]

theorem c10_witness :
    ([[27]] : List (List Nat)).flatten ++ [91, 50, 74] =
        [] ++ [27, 91, 50, 74] ++ [] ∧
    ([] : List Nat).length < ([91, 50, 74] : List Nat).length ∧
    [27, 91, 50, 74] ∈ screenClearSequences ∧
    (omScreenDetect (detRun detInit [[27]]) (BState.mk 1 true false) [91, 50, 74]).2 =
      handleScreenClear (BState.mk 1 true false) ∧
    (handleScreenClear (BState.mk 1 true false)).backstopSent = false ∧
    (bRun (BState.mk 1 true false) [BEvent.resetSession, BEvent.timerFire]).2 =
      [("backstop")] := by
  have hmem : [27, 91, 50, 74] ∈ screenClearSequences := by decide
  have heq : ([[27]] : List (List Nat)).flatten ++ [91, 50, 74] =
      [] ++ [27, 91, 50, 74] ++ [] := by decide
  have hβ : ([] : List Nat).length < ([91, 50, 74] : List Nat).length := by decide
  have h := c10_theorem [[27]] [91, 50, 74] [] [] [27, 91, 50, 74]
    (BState.mk 1 true false) hmem heq hβ
  exact ⟨heq, hβ, hmem, h.1, h.2.1, h.2.2.2 (by decide)⟩

/-! ## Output pump reader (outputReader) -/

/-- The focus-reporting escape sequences the reader strips from the
stream: ESC[?1004h and ESC[?1004l. -/
def focusSequences : List (List Nat) :=
  [[27, 91, 63, 49, 48, 48, 52, 104], [27, 91, 63, 49, 48, 48, 52, 108]]

/-- Remove every non-overlapping occurrence of seq, scanning left to
right (bytes.ReplaceAll with an empty replacement).  The fuel argument
is the length of the scanned list; each step consumes at least one
byte, so the fuel never runs out on the initial call below. -/
def removeSeqAux (seq : List Nat) : Nat → List Nat → List Nat
  | 0, l => l
  | _ + 1, [] => []
  | fuel + 1, b :: l =>
      if startsWithSeq seq (b :: l) = true ∧ 0 < seq.length then
        removeSeqAux seq fuel ((b :: l).drop seq.length)
      else
        b :: removeSeqAux seq fuel l

/-- bytes.ReplaceAll(l, seq, []). -/
def removeSeq (seq : List Nat) (l : List Nat) : List Nat :=
  removeSeqAux seq l.length l

/-- outputReader.filterFocusSequences: strip each focus sequence in
turn. -/
def filterFocusSequences (data : List Nat) : List Nat :=
  focusSequences.foldl (fun result seq => removeSeq seq result) data

/-- Reader state: the internal carry-over buffer r.buffer. -/
structure ORState where
  buffer : List Nat
deriving DecidableEq, Repr

/-- One outputReader.Read call that obtained chunk from the PTY master,
with cap = len(p) the capacity of the destination slice (io.Copy uses
32 KiB).  The chunk joins the internal buffer, the whole buffer is
focus-filtered and copied out, and the buffer is cleared only when the
filter removed something (else it is merely trimmed to its last 100
bytes once it exceeds 1024).  Returns the bytes written to the
controlling terminal and the successor state. -/
def orRead (cap : Nat) (st : ORState) (chunk : List Nat) : List Nat × ORState :=
  let buf := st.buffer ++ chunk
  let filtered := filterFocusSequences buf
  let out := filtered.take cap
  let buf2 :=
    if filtered.length < buf.length then ([] : List Nat)
    else if buf.length > 1024 then buf.drop (buf.length - 100)
    else buf
  (out, { buffer := buf2 })

/-- The bytes the output pump delivers to the terminal over a sequence
of master reads. -/
def orRun (cap : Nat) (st : ORState) : List (List Nat) → List Nat
  | [] => []
  | c :: cs => (orRead cap st c).1 ++ orRun cap (orRead cap st c).2 cs

/-- C3: the output pump is not byte-identical.  When nothing is
filtered, outputReader.Read keeps the whole accumulated buffer, so the
next Read emits the previous bytes again: the child writing AB then CD
reaches the terminal as ABABCD.  And a focus-reporting sequence written
by the child is silently dropped. -/
theorem c3_theorem :
    orRun 32768 (ORState.mk []) [[65, 66], [67, 68]] = [65, 66, 65, 66, 67, 68] ∧
    ([[65, 66], [67, 68]] : List (List Nat)).flatten = [65, 66, 67, 68] ∧
    orRun 32768 (ORState.mk []) [[27, 91, 63, 49, 48, 48, 52, 104]] = [] := by
  refine ⟨?_, ?_, ?_⟩ <;> decide

/-! ## Exit-code bookkeeping (Manager.Wait / Manager.ExitCode) -/

/-- Outcome of a reaped child. -/
inductive ProcState where
  | exited (code : Nat)
  | signaled (sig : Nat)
deriving DecidableEq, Repr

/-- Documented semantics of Go os.ProcessState.ExitCode, which
Manager.Wait calls: the exit code of an exited process, and -1 when the
process was terminated by a signal. -/
def goExitCode : ProcState → Int
  | .exited code => code
  | .signaled _ => -1

/-- Manager's exit-code field, zero-valued until Wait records one. -/
structure ManagerState where
  exitCode : Int
deriving DecidableEq, Repr

/-- NewManager: exitCode starts at its zero value. -/
def newManager : ManagerState :=
  { exitCode := 0 }

/-- Manager.Wait: when the reaped ProcessState is available, store
ProcessState.ExitCode(); otherwise leave the field alone. -/
def managerWait (m : ManagerState) (ps : Option ProcState) : ManagerState :=
  match ps with
  | some st => { exitCode := goExitCode st }
  | none => m

/-- Manager.ExitCode. -/
def managerExitCode (m : ManagerState) : Int :=
  m.exitCode

/-- C6 counterexample.  The claim says a signal death yields 128 plus
the signal number.  Manager.Wait stores ProcessState.ExitCode(), which
is -1 for a signaled child, so after reaping a child killed by signal 9
ExitCode() returns -1, not 137. -/
theorem c6_counterexample :
    managerExitCode (managerWait newManager (some (ProcState.signaled 9))) = -1 ∧
    ¬ (managerExitCode (managerWait newManager (some (ProcState.signaled 9))) = 128 + 9) := by
  decide

/-- C6 amended.  ExitCode() returns 0 before the child has been reaped;
after the child is reaped it returns the child's exit code when the
child exited normally, and -1 (the value of Go ProcessState.ExitCode for
a signaled process) — not 128 plus the signal number — when the child
died from a signal. -/
theorem c6_theorem :
    managerExitCode newManager = 0 ∧
    (∀ code : Nat,
      managerExitCode (managerWait newManager (some (ProcState.exited code))) = code) ∧
    (∀ sig : Nat,
      managerExitCode (managerWait newManager (some (ProcState.signaled sig))) = -1) :=
  ⟨rfl, fun _ => rfl, fun _ => rfl⟩

/-! ## Signal registration and forwarding (Manager) -/

/-- The signal set Manager.setupSignalForwarding registers with
signal.Notify, by number and in source order: SIGTERM, SIGINT, SIGHUP,
SIGQUIT, SIGUSR1, SIGUSR2, SIGWINCH.  The registration is
unconditional: the function consults nothing about the controlling
terminal. -/
def setupSignalForwardingSignals : List Nat :=
  [15, 2, 1, 3, 10, 12, 28]

/-- Manager.forwardSignals: every signal delivered on the channel (the
registered ones) is forwarded to the child process while it exists. -/
def signalsForwarded (processUp : Bool) (received : List Nat) : List Nat :=
  let delivered := received.filter (fun s => decide (s ∈ setupSignalForwardingSignals))
  if processUp then delivered else []

/-- C7 counterexample.  The claim says a SIGINT handler is installed
only when the controlling terminal is not a terminal.  The registration
in Manager.setupSignalForwarding is a fixed list with no terminal check,
and SIGINT (2) is in it — so a SIGINT handler is installed in every run,
terminal or not. -/
theorem c7_counterexample :
    2 ∈ setupSignalForwardingSignals := by
  decide

/-- C7 amended.  The wrapper installs handlers for SIGTERM, SIGINT,
SIGHUP, SIGQUIT, SIGUSR1, SIGUSR2 and SIGWINCH unconditionally, and
while the child exists every received registered signal — including
SIGINT — is forwarded to the child process (so keyboard SIGINT is both
delivered through the PTY and forwarded by the wrapper). -/
theorem c7_theorem (sig : Nat) (hsig : sig ∈ setupSignalForwardingSignals) :
    signalsForwarded true [sig] = [sig] ∧ signalsForwarded false [sig] = [] := by
  constructor
  · simp [signalsForwarded, List.filter, hsig]
  · simp [signalsForwarded]

theorem c7_witness :
    2 ∈ setupSignalForwardingSignals ∧
    (signalsForwarded true [2] = [2] ∧ signalsForwarded false [2] = []) := by
  have h : 2 ∈ setupSignalForwardingSignals := by decide
  exact ⟨h, c7_theorem 2 h⟩

/-! ## Self-wrap refusal (Manager.Start) -/

/-- Go os.Getenv over an environment list. -/
def lookupEnv (env : List (String × String)) (k : String) : Option String :=
  (env.find? (fun p => p.1 == k)).map (fun p => p.2)

/-- The self-wrap marker variable. -/
def wrappedMarker : String :=
  "CLAUDE_CODE_NTFY_WRAPPED"

/-- What a successful Manager.Start hands to the PTY transport: the
command, its arguments, and the child environment. -/
structure StartedChild where
  command : String
  args : List String
  env : List (String × String)
deriving DecidableEq, Repr

/-- Manager.Start: refuse when the wrapper's own environment already
carries CLAUDE_CODE_NTFY_WRAPPED=1 (returning an error before the PTY
transport is ever started), else spawn the child with the marker
appended to the inherited environment. -/
def managerStart (command : String) (args : List String)
    (env : List (String × String)) : Except String StartedChild :=
  if lookupEnv env wrappedMarker == some ("1") then
    Except.error ("already wrapped by claude-code-ntfy")
  else
    Except.ok (StartedChild.mk command args (env ++ [(wrappedMarker, ("1"))]))

/-- C8 confirmed.  For every command, argument list and environment: if
the environment carries the marker with value 1, Start returns an error
and no child is spawned (the ok branch carrying the spawn is never
reached); and every successful Start passes the child an environment
containing the marker set to 1. -/
theorem c8_theorem (command : String) (args : List String)
    (env : List (String × String)) :
    (lookupEnv env wrappedMarker = some ("1") →
      managerStart command args env =
        Except.error ("already wrapped by claude-code-ntfy")) ∧
    (∀ child : StartedChild, managerStart command args env = Except.ok child →
      (wrappedMarker, ("1")) ∈ child.env) := by
  constructor
  · intro h
    simp [managerStart, h]
  · intro child h
    by_cases hc : (lookupEnv env wrappedMarker == some ("1")) = true
    · simp [managerStart, hc] at h
    · simp [managerStart, hc] at h
      rw [← h]
      simp

theorem c8_witness :
    lookupEnv [(wrappedMarker, ("1"))] wrappedMarker = some ("1") ∧
    managerStart ("claude") [] [(wrappedMarker, ("1"))] =
      Except.error ("already wrapped by claude-code-ntfy") ∧
    managerStart ("claude") [] [] =
      Except.ok (StartedChild.mk ("claude") [] [(wrappedMarker, ("1"))]) ∧
    (wrappedMarker, ("1")) ∈
      (StartedChild.mk ("claude") [] [(wrappedMarker, ("1"))]).env := by
  have h1 : lookupEnv [(wrappedMarker, ("1"))] wrappedMarker = some ("1") := by decide
  have h3 : managerStart ("claude") [] [] =
      Except.ok (StartedChild.mk ("claude") [] [(wrappedMarker, ("1"))]) := by rfl
  refine ⟨h1, (c8_theorem ("claude") [] [(wrappedMarker, ("1"))]).1 h1, h3, ?_⟩
  exact (c8_theorem ("claude") [] []).2
    (StartedChild.mk ("claude") [] [(wrappedMarker, ("1"))]) h3

/-! ## Configuration validation (config.validate) -/

/-- Rate-limit sub-configuration. -/
structure RateLimitConfig where
  window : Int
  maxMessages : Int
deriving DecidableEq, Repr

/-- The configuration record, durations as Go time.Duration (Int). -/
structure Config where
  ntfyTopic : String
  ntfyServer : String
  idleTimeout : Int
  quiet : Bool
  forceNotify : Bool
  rateLimit : RateLimitConfig
  batchWindow : Int
deriving DecidableEq, Repr

/-- config.validate, checks in source order.  Load runs this after file
and environment merging and propagates any error, so a rejected
configuration aborts startup before a child is spawned. -/
def validate (cfg : Config) : Except String Unit :=
  if cfg.ntfyTopic == "" && !cfg.quiet then
    Except.error ("ntfy_topic is required when not in quiet mode")
  else if cfg.rateLimit.maxMessages < 0 then
    Except.error ("rate_limit.max_messages must be non-negative")
  else if cfg.rateLimit.window < 0 then
    Except.error ("rate_limit.window must be non-negative")
  else if cfg.batchWindow < 0 then
    Except.error ("batch_window must be non-negative")
  else
    Except.ok ()

/-- C9 confirmed.  Validation rejects every configuration with an empty
topic and quiet=false, and accepts an empty topic once quiet is true
(the other validated fields being in range, as they are for every
configuration the loader builds from defaults). -/
theorem c9_theorem (cfg : Config) :
    (cfg.ntfyTopic = "" → cfg.quiet = false →
      validate cfg = Except.error ("ntfy_topic is required when not in quiet mode")) ∧
    (cfg.ntfyTopic = "" → cfg.quiet = true →
      0 ≤ cfg.rateLimit.maxMessages → 0 ≤ cfg.rateLimit.window →
      0 ≤ cfg.batchWindow → validate cfg = Except.ok ()) := by
  constructor
  · intro ht hq
    simp [validate, ht, hq]
  · intro ht hq h1 h2 h3
    have k1 : ¬ (cfg.rateLimit.maxMessages < 0) := by omega
    have k2 : ¬ (cfg.rateLimit.window < 0) := by omega
    have k3 : ¬ (cfg.batchWindow < 0) := by omega
    simp [validate, hq, k1, k2, k3]

theorem c9_witness :
    validate (Config.mk ("") ("https://ntfy.sh") 0 false false (RateLimitConfig.mk 0 0) 0) =
      Except.error ("ntfy_topic is required when not in quiet mode") ∧
    validate (Config.mk ("") ("https://ntfy.sh") 0 true false (RateLimitConfig.mk 0 0) 0) =
      Except.ok () := by
  constructor
  · exact (c9_theorem
      (Config.mk ("") ("https://ntfy.sh") 0 false false (RateLimitConfig.mk 0 0) 0)).1
      rfl rfl
  · exact (c9_theorem
      (Config.mk ("") ("https://ntfy.sh") 0 true false (RateLimitConfig.mk 0 0) 0)).2
      rfl rfl (by decide) (by decide) (by decide)
